import Mathlib

/-!
Shallow embedding of the Wolfram elementary cellular-automaton core of the
repository (the functions `window`, `get_rule` and `generate_pattern` of the
notebooks).  Python strings are modelled as `List Char`, Python integers as
`Int` (or `Nat` where the value is known non-negative), and a raised Python
exception (KeyError / IndexError) as `none` in `Option`.
-/

/-- Little-endian binary digit characters of `n` (empty list for 0), written
with explicit fuel so that it is structurally recursive and reduces in the
kernel.  Invoked as `binCharsRevAux n n`; `n` is always enough fuel because
the argument halves at every call. -/
def binCharsRevAux : Nat → Nat → List Char
  | 0, _ => []
  | fuel + 1, n =>
    if n = 0 then []
    else (if n % 2 = 1 then '1' else '0') :: binCharsRevAux fuel (n / 2)

/-- Little-endian binary digit characters of `n` (empty for 0). -/
def binCharsRev (n : Nat) : List Char := binCharsRevAux n n

/-- Binary digit characters of `n`, most significant first, with `"0"` for 0:
the digits Python's `format(n, 'b')` produces for a non-negative `n`. -/
def binChars (n : Nat) : List Char :=
  if n = 0 then ['0'] else (binCharsRev n).reverse

/-- Pad a character list on the left with `'0'` up to width `w` (no change if
it is already at least that long): Python's zero-padding in `format`. -/
def leftPadZeros (w : Nat) (s : List Char) : List Char :=
  List.replicate (w - s.length) '0' ++ s

/-- Model of Python `f"{n:08b}"` for an arbitrary integer `n`: the binary
digits of `|n|`, with a leading `'-'` for negative `n`, zero-padded after the
sign so that the total width is at least 8. -/
def pyFormat08b (n : Int) : List Char :=
  if n < 0 then '-' :: leftPadZeros 7 (binChars (-n).toNat)
  else leftPadZeros 8 (binChars n.toNat)

/-- The character `'1'` or `'0'` according to bit `i` of `m`. -/
def bitChar (m i : Nat) : Char :=
  if m.testBit i then '1' else '0'

/-- Build the association list of the dict comprehension in `get_rule`:
iterate over the given indices `i`, key `f"{i:03b}"`, value `rule_number[i]`
(Python string indexing, `none` on IndexError, aborting the whole build). -/
def buildRule (rn : List Char) : List Nat → Option (List (List Char × Char))
  | [] => some []
  | i :: rest => do
    let c ← rn[i]?
    let tbl ← buildRule rn rest
    pure ((leftPadZeros 3 (binChars i), c) :: tbl)

/-- Embedding of the source's `get_rule(n)`:
`rule_number = f"{n:08b}"[::-1]` and then
`{f"{i:03b}": rule_number[i] for i in range(8)}`. -/
def get_rule (n : Int) : Option (List (List Char × Char)) :=
  buildRule ((pyFormat08b n).reverse) (List.range 8)

/-- The table `get_rule n` actually builds (the indexing never fails because
the formatted string always has at least 8 characters):
key `f"{i:03b}"`, value character `i` of the reversed formatted string. -/
def pyRuleTable (n : Int) : List (List Char × Char) :=
  (List.range 8).map fun i =>
    (leftPadZeros 3 (binChars i), ((pyFormat08b n).reverse).getD i '0')

/-- Embedding of the source's `window(iterable, stride=3)` at its default
stride: the slices `iterable[i:i+3]` for `i in range(len(iterable) - 3 + 1)`,
where the Python range of a negative number is empty (hence the `Int`
subtraction before `toNat`). -/
def window (iterable : List Char) : List (List Char) :=
  (List.range (((iterable.length : Int) - 3 + 1).toNat)).map
    fun i => (iterable.drop i).take 3

/-- The generator expression `(rule[pat] for pat in patterns)` consumed by
`''.join`: look every pattern up in the rule table, `none` on the first
KeyError (which in Python aborts the whole call). -/
def ruleMap (rule : List (List Char × Char)) : List (List Char) → Option (List Char)
  | [] => some []
  | pat :: rest => do
    let c ← List.lookup pat rule
    let cs ← ruleMap rule rest
    pure (c :: cs)

/-- One loop iteration of `generate_pattern`:
`state = ''.join(rule[pat] for pat in window(state))` followed by
`state = '0{}0'.format(state)`. -/
def stepState (rule : List (List Char × Char)) (state : List Char) :
    Option (List Char) := do
  let interior ← ruleMap rule (window state)
  pure ('0' :: (interior ++ ['0']))

/-- The `for gen in range(max_gen)` loop of `generate_pattern`, returning the
list of the states appended after the initial one (`none` if any iteration
raises). -/
def genLoop (rule : List (List Char × Char)) (state : List Char) :
    Nat → Option (List (List Char))
  | 0 => some []
  | k + 1 => do
    let s1 ← stepState rule state
    let rest ← genLoop rule s1 k
    pure (s1 :: rest)

/-- Embedding of the source's `generate_pattern(state, rule, max_gen)`:
`states = [state]`, then `max_gen` iterations each appending the next state
(a negative `max_gen` gives an empty Python range, i.e. `Int.toNat` many
iterations). -/
def generate_pattern (state : List Char) (rule : List (List Char × Char))
    (max_gen : Int) : Option (List (List Char)) := do
  let rest ← genLoop rule state max_gen.toNat
  pure (state :: rest)

/-- A well-formed configuration: every cell is `'0'` or `'1'`. -/
def wfState (s : List Char) : Prop :=
  ∀ c ∈ s, c = '0' ∨ c = '1'

/-- A rule table is total when every well-formed 3-cell neighbourhood has
exactly one successor, itself an off- or on-cell. -/
def totalRule (R : List (List Char × Char)) : Prop :=
  ∀ pat : List Char, wfState pat → pat.length = 3 →
    ∃ c, (c = '0' ∨ c = '1') ∧ List.lookup pat R = some c

example : binChars 90 = ['1', '0', '1', '1', '0', '1', '0'] := by decide
example : pyFormat08b 90 = ['0', '1', '0', '1', '1', '0', '1', '0'] := by decide
example : pyFormat08b (-5) = ['-', '0', '0', '0', '0', '1', '0', '1'] := by decide
example : window ['0', '1', '0', '1'] = [['0', '1', '0'], ['1', '0', '1']] := by decide
example : window ['0', '1'] = [] := by decide
example : get_rule 90 = some (pyRuleTable 90) := by decide
example : List.lookup ['0', '1', '0'] (pyRuleTable 90) = some '0' := by decide
example : generate_pattern ['0', '1', '0'] (pyRuleTable 90) 1 =
    some [['0', '1', '0'], ['0', '0', '0']] := by decide
example : generate_pattern ['0', '1'] (pyRuleTable 90) 1 =
    some [['0', '1'], ['0', '0']] := by decide
example : generate_pattern ['0', '1', '0'] (pyRuleTable 90) (-5) =
    some [['0', '1', '0']] := by decide

/-- In-bounds characters of the little-endian digit list are the bits. -/
theorem binCharsRevAux_getElem? (fuel : Nat) :
    ∀ n i, n ≤ fuel → i < (binCharsRevAux fuel n).length →
      (binCharsRevAux fuel n)[i]? = some (bitChar n i) := by
  induction fuel with
  | zero =>
    intro n i hn hi
    simp [binCharsRevAux] at hi
  | succ f ih =>
    intro n i hn hi
    by_cases h0 : n = 0
    · subst h0; simp [binCharsRevAux] at hi
    · rw [binCharsRevAux, if_neg h0] at hi ⊢
      cases i with
      | zero =>
        simp only [List.getElem?_cons_zero, bitChar, Nat.testBit_zero]
        by_cases h2 : n % 2 = 1 <;> simp [h2]
      | succ i =>
        simp only [List.getElem?_cons_succ]
        simp only [List.length_cons, Nat.add_lt_add_iff_right] at hi
        rw [ih (n / 2) i (by omega) hi]
        simp only [bitChar, Nat.testBit_add_one]

/-- The value is below `2 ^ (number of binary digits)`. -/
theorem binCharsRevAux_lt_two_pow (fuel : Nat) :
    ∀ n, n ≤ fuel → n < 2 ^ (binCharsRevAux fuel n).length := by
  induction fuel with
  | zero =>
    intro n hn
    interval_cases n
    simp [binCharsRevAux]
  | succ f ih =>
    intro n hn
    by_cases h0 : n = 0
    · subst h0; simp [binCharsRevAux]
    · rw [binCharsRevAux, if_neg h0]
      have h2 := ih (n / 2) (by omega)
      simp only [List.length_cons]
      rw [pow_succ]
      omega

/-- Character `i` of the reversed `f"{m:08b}"` string, for a non-negative
`m` and `i < 8`, is exactly bit `i` of `m`. -/
theorem pyFormat08b_reverse_getElem? (m i : Nat) (hi : i < 8) :
    ((pyFormat08b (m : Int)).reverse)[i]? = some (bitChar m i) := by
  rw [pyFormat08b, if_neg (by omega)]
  rw [Int.toNat_natCast]
  by_cases h0 : m = 0
  · subst h0
    have hb : binChars 0 = ['0'] := rfl
    rw [hb]
    have : bitChar 0 i = '0' := by simp [bitChar, Nat.zero_testBit]
    rw [this]
    rw [leftPadZeros, List.reverse_append, List.reverse_replicate]
    simp only [List.length_cons, List.length_nil]
    rw [show ((8 : Nat) - (0 + 1)) = 7 from rfl]
    have : (['0'].reverse ++ List.replicate 7 '0') = List.replicate 8 '0' := rfl
    rw [this, List.getElem?_replicate, if_pos hi]
  · rw [binChars, if_neg h0]
    rw [leftPadZeros, List.reverse_append, List.reverse_replicate,
      List.reverse_reverse]
    by_cases hlen : i < (binCharsRev m).length
    · rw [List.getElem?_append_left hlen]
      exact binCharsRevAux_getElem? m m i (le_refl m) hlen
    · push_neg at hlen
      rw [List.getElem?_append_right hlen]
      have hlt : m < 2 ^ (binCharsRev m).length :=
        binCharsRevAux_lt_two_pow m m (le_refl m)
      have hbit : m.testBit i = false := by
        apply Nat.testBit_lt_two_pow
        calc m < 2 ^ (binCharsRev m).length := hlt
          _ ≤ 2 ^ i := Nat.pow_le_pow_right (by norm_num) hlen
      have hb : bitChar m i = '0' := by simp [bitChar, hbit]
      rw [hb]
      rw [List.length_reverse]
      rw [List.getElem?_replicate, if_pos (by omega)]

/-- When every index is in bounds, the dict build succeeds and yields the
association list of keys `f"{i:03b}"` and indexed characters. -/
theorem buildRule_eq_some (rn : List Char) :
    ∀ l : List Nat, (∀ i ∈ l, i < rn.length) →
      buildRule rn l =
        some (l.map fun i => (leftPadZeros 3 (binChars i), rn.getD i '0')) := by
  intro l
  induction l with
  | nil => intro _; rfl
  | cons i rest ih =>
    intro h
    have hi : i < rn.length := h i (List.mem_cons_self i rest)
    have h1 : rn[i]? = some (rn.getD i '0') := by
      rw [List.getD_eq_getElem?_getD, List.getElem?_eq_getElem hi]
      rfl
    rw [buildRule, h1, ih (fun j hj => h j (List.mem_cons_of_mem i hj))]
    rfl

/-- The formatted string `f"{n:08b}"` always has at least 8 characters. -/
theorem pyFormat08b_length (n : Int) : 8 ≤ (pyFormat08b n).length := by
  rw [pyFormat08b]
  by_cases h : n < 0 <;>
    simp [h, leftPadZeros, List.length_append, List.length_replicate] <;>
    omega

/-- The dict build in `get_rule` never raises: it returns `pyRuleTable n`. -/
theorem get_rule_eq (n : Int) : get_rule n = some (pyRuleTable n) := by
  rw [get_rule, pyRuleTable]
  apply buildRule_eq_some
  intro i hi
  rw [List.length_reverse]
  have h8 := pyFormat08b_length n
  rw [List.mem_range] at hi
  omega

/-- Looking a key `f"{i:03b}"` up in the built table returns character `i`
of the reversed formatted string. -/
theorem pyRuleTable_lookup (m i : Nat) (hi : i < 8) :
    List.lookup (leftPadZeros 3 (binChars i)) (pyRuleTable (m : Int)) =
      some (((pyFormat08b (m : Int)).reverse).getD i '0') := by
  interval_cases i <;> rfl

/-- Table entries of a non-negative rule number are the bits of the number. -/
theorem pyRuleTable_lookup_bit (m i : Nat) (hi : i < 8) :
    List.lookup (leftPadZeros 3 (binChars i)) (pyRuleTable (m : Int)) =
      some (bitChar m i) := by
  rw [pyRuleTable_lookup m i hi]
  have h := pyFormat08b_reverse_getElem? m i hi
  rw [List.getD_eq_getElem?_getD, h]
  rfl

/-- Either bit character is an off- or on-cell. -/
theorem bitChar_mem (m i : Nat) : bitChar m i = '0' ∨ bitChar m i = '1' := by
  by_cases h : m.testBit i <;> simp [bitChar, h]

/-- The table of a non-negative rule number is a total rule. -/
theorem pyRuleTable_total (m : Nat) : totalRule (pyRuleTable (m : Int)) := by
  intro pat hwf hlen
  obtain ⟨a, b, c, rfl⟩ := List.length_eq_three.mp hlen
  have ha := hwf a (by simp)
  have hb := hwf b (by simp)
  have hc := hwf c (by simp)
  rcases ha with rfl | rfl <;> rcases hb with rfl | rfl <;> rcases hc with rfl | rfl
  · exact ⟨bitChar m 0, bitChar_mem m 0, pyRuleTable_lookup_bit m 0 (by norm_num)⟩
  · exact ⟨bitChar m 1, bitChar_mem m 1, pyRuleTable_lookup_bit m 1 (by norm_num)⟩
  · exact ⟨bitChar m 2, bitChar_mem m 2, pyRuleTable_lookup_bit m 2 (by norm_num)⟩
  · exact ⟨bitChar m 3, bitChar_mem m 3, pyRuleTable_lookup_bit m 3 (by norm_num)⟩
  · exact ⟨bitChar m 4, bitChar_mem m 4, pyRuleTable_lookup_bit m 4 (by norm_num)⟩
  · exact ⟨bitChar m 5, bitChar_mem m 5, pyRuleTable_lookup_bit m 5 (by norm_num)⟩
  · exact ⟨bitChar m 6, bitChar_mem m 6, pyRuleTable_lookup_bit m 6 (by norm_num)⟩
  · exact ⟨bitChar m 7, bitChar_mem m 7, pyRuleTable_lookup_bit m 7 (by norm_num)⟩

/-- The number of sliding windows over a list of length at least 2. -/
theorem window_length_sub (s : List Char) (h : 2 ≤ s.length) :
    (window s).length = s.length - 2 := by
  rw [window, List.length_map, List.length_range]
  omega

/-- A list shorter than 3 has no windows. -/
theorem window_eq_nil (s : List Char) (h : s.length < 3) : window s = [] := by
  rw [window]
  rw [show ((s.length : Int) - 3 + 1).toNat = 0 by omega]
  rfl

/-- Every window is a 3-cell slice whose cells come from the list. -/
theorem window_mem (s pat : List Char) (h : pat ∈ window s) :
    pat.length = 3 ∧ ∀ c ∈ pat, c ∈ s := by
  rw [window] at h
  obtain ⟨i, hi, rfl⟩ := List.mem_map.mp h
  rw [List.mem_range] at hi
  refine ⟨?_, ?_⟩
  · rw [List.length_take, List.length_drop]
    omega
  · intro c hc
    exact List.mem_of_mem_drop (List.mem_of_mem_take hc)

/-- Mapping well-formed 3-cell windows through a total rule never raises and
produces one well-formed cell per window. -/
theorem ruleMap_total (R : List (List Char × Char)) (hR : totalRule R) :
    ∀ ws : List (List Char), (∀ pat ∈ ws, wfState pat ∧ pat.length = 3) →
      ∃ cs, ruleMap R ws = some cs ∧ cs.length = ws.length ∧ wfState cs := by
  intro ws
  induction ws with
  | nil =>
    intro _
    exact ⟨[], rfl, rfl, fun c hc => absurd hc (List.not_mem_nil c)⟩
  | cons pat rest ih =>
    intro h
    obtain ⟨hwf, hlen⟩ := h pat (List.mem_cons_self pat rest)
    obtain ⟨c, hc01, hc⟩ := hR pat hwf hlen
    obtain ⟨cs, hcs, hcslen, hcswf⟩ :=
      ih (fun p hp => h p (List.mem_cons_of_mem pat hp))
    refine ⟨c :: cs, ?_, by simp [hcslen], ?_⟩
    · rw [ruleMap, hc, hcs]
      rfl
    · intro x hx
      rcases List.mem_cons.mp hx with rfl | hx
      · exact hc01
      · exact hcswf x hx

/-- A transition step on a well-formed configuration of width at least 3
under a total rule succeeds, preserves the length, and stays well-formed. -/
theorem stepState_total (R : List (List Char × Char)) (hR : totalRule R)
    (s : List Char) (hwf : wfState s) (h3 : 3 ≤ s.length) :
    ∃ t, stepState R s = some t ∧ t.length = s.length ∧ wfState t := by
  have hwin : ∀ pat ∈ window s, wfState pat ∧ pat.length = 3 := by
    intro pat hp
    obtain ⟨hl, hmem⟩ := window_mem s pat hp
    exact ⟨fun c hc => hwf c (hmem c hc), hl⟩
  obtain ⟨cs, hcs, hlen, hcswf⟩ := ruleMap_total R hR (window s) hwin
  have hwl := window_length_sub s (by omega)
  refine ⟨'0' :: (cs ++ ['0']), ?_, ?_, ?_⟩
  · rw [stepState, hcs]
    rfl
  · simp only [List.length_cons, List.length_append, List.length_nil]
    omega
  · intro c hc
    rcases List.mem_cons.mp hc with rfl | hc
    · exact Or.inl rfl
    · rcases List.mem_append.mp hc with hc | hc
      · exact hcswf c hc
      · rcases List.mem_singleton.mp hc with rfl
        exact Or.inl rfl

/-- A transition step on a configuration of width less than 3 silently
produces the two-cell all-off configuration `"00"`. -/
theorem stepState_short (R : List (List Char × Char)) (s : List Char)
    (h : s.length < 3) : stepState R s = some ['0', '0'] := by
  rw [stepState, window_eq_nil s h]
  rfl

/-- Any configuration a step produces starts and ends with an off-cell. -/
theorem stepState_boundary (R : List (List Char × Char)) (s t : List Char)
    (h : stepState R s = some t) :
    t.head? = some '0' ∧ t.getLast? = some '0' := by
  rw [stepState] at h
  cases hrm : ruleMap R (window s) with
  | none => rw [hrm] at h; simp at h
  | some cs =>
    rw [hrm] at h
    simp only [Option.bind_eq_bind, Option.some_bind, Option.pure_def,
      Option.some_inj] at h
    subst h
    refine ⟨rfl, ?_⟩
    rw [show ('0' :: (cs ++ ['0'])) = ('0' :: cs) ++ ['0'] from rfl]
    exact List.getLast?_concat _

/-- The all-off two-cell configuration is well-formed. -/
theorem wfState_zero_zero : wfState ['0', '0'] := by
  intro c hc
  rcases List.mem_cons.mp hc with rfl | hc
  · exact Or.inl rfl
  · rcases List.mem_cons.mp hc with rfl | hc
    · exact Or.inl rfl
    · exact absurd hc (List.not_mem_nil c)

/-- Under a total rule, the generation loop never raises on a well-formed
starting configuration (of any width) and appends exactly `k` states. -/
theorem genLoop_total (R : List (List Char × Char)) (hR : totalRule R) :
    ∀ (k : Nat) (s : List Char), wfState s →
      ∃ rest, genLoop R s k = some rest ∧ rest.length = k := by
  intro k
  induction k with
  | zero => intro s _; exact ⟨[], rfl, rfl⟩
  | succ k ih =>
    intro s hs
    by_cases h3 : 3 ≤ s.length
    · obtain ⟨t, ht, _, htwf⟩ := stepState_total R hR s hs h3
      obtain ⟨rest, hrest, hrestlen⟩ := ih t htwf
      refine ⟨t :: rest, ?_, by simp [hrestlen]⟩
      rw [genLoop, ht]
      simp only [Option.bind_eq_bind, Option.some_bind]
      rw [hrest]
      rfl
    · push_neg at h3
      have ht := stepState_short R s h3
      obtain ⟨rest, hrest, hrestlen⟩ := ih ['0', '0'] wfState_zero_zero
      refine ⟨['0', '0'] :: rest, ?_, by simp [hrestlen]⟩
      rw [genLoop, ht]
      simp only [Option.bind_eq_bind, Option.some_bind]
      rw [hrest]
      rfl

/-- Under a total rule and a starting width of at least 3, the generation
loop additionally keeps every appended state at the starting width, each one
well-formed. -/
theorem genLoop_total_len (R : List (List Char × Char)) (hR : totalRule R) :
    ∀ (k : Nat) (s : List Char), wfState s → 3 ≤ s.length →
      ∃ rest, genLoop R s k = some rest ∧ rest.length = k ∧
        ∀ x ∈ rest, x.length = s.length := by
  intro k
  induction k with
  | zero =>
    intro s _ _
    exact ⟨[], rfl, rfl, fun x hx => absurd hx (List.not_mem_nil x)⟩
  | succ k ih =>
    intro s hs h3
    obtain ⟨t, ht, htlen, htwf⟩ := stepState_total R hR s hs h3
    obtain ⟨rest, hrest, hrestlen, hrestall⟩ := ih t htwf (htlen ▸ h3)
    refine ⟨t :: rest, ?_, by simp [hrestlen], ?_⟩
    · rw [genLoop, ht]
      simp only [Option.bind_eq_bind, Option.some_bind]
      rw [hrest]
      rfl
    · intro x hx
      rcases List.mem_cons.mp hx with rfl | hx
      · exact htlen
      · rw [hrestall x hx, htlen]

/-- Every state the generation loop appends starts and ends with an
off-cell, whatever the rule table and starting configuration. -/
theorem genLoop_boundary (R : List (List Char × Char)) :
    ∀ (k : Nat) (s : List Char) (rest : List (List Char)),
      genLoop R s k = some rest →
      ∀ x ∈ rest, x.head? = some '0' ∧ x.getLast? = some '0' := by
  intro k
  induction k with
  | zero =>
    intro s rest h x hx
    simp only [genLoop, Option.some_inj] at h
    subst h
    exact absurd hx (List.not_mem_nil x)
  | succ k ih =>
    intro s rest h x hx
    rw [genLoop] at h
    cases hst : stepState R s with
    | none => rw [hst] at h; simp at h
    | some s1 =>
      rw [hst] at h
      simp only [Option.bind_eq_bind, Option.some_bind] at h
      cases hgl : genLoop R s1 k with
      | none => rw [hgl] at h; simp at h
      | some r =>
        rw [hgl] at h
        simp only [Option.some_bind, Option.pure_def,
          Option.some_inj] at h
        subst h
        rcases List.mem_cons.mp hx with rfl | hx
        · exact stepState_boundary R s x hst
        · exact ih s1 r hgl x hx

/-- When the generation loop succeeds, `generate_pattern` returns the
initial state followed by the appended ones. -/
theorem generate_pattern_eq (state : List Char) (R : List (List Char × Char))
    (N : Int) (rest : List (List Char))
    (h : genLoop R state N.toNat = some rest) :
    generate_pattern state R N = some (state :: rest) := by
  rw [generate_pattern, h]
  rfl

/-- The element at an in-bounds index is a member of the list. -/
theorem getD_mem_of_lt (l : List (List Char)) (j : Nat) (hj : j < l.length) :
    l.getD j [] ∈ l := by
  rw [List.getD_eq_getElem?_getD, List.getElem?_eq_getElem hj, Option.getD_some]
  exact List.getElem_mem hj

/-- Well-formedness of a concrete configuration is decidable. -/
instance (s : List Char) : Decidable (wfState s) :=
  inferInstanceAs (Decidable (∀ c ∈ s, c = '0' ∨ c = '1'))

/-- C2: for every rule number `n` with `0 ≤ n ≤ 255`, `get_rule n` builds a
total table: each of the 8 neighbourhood patterns `f"{i:03b}"` (first symbol
most significant) is mapped to exactly one symbol, namely `'1'` if bit `i`
of `n` (counted from the least-significant bit) is set and `'0'` otherwise. -/
theorem claim2_rule_table_bits (n : Nat) (_hn : n ≤ 255) :
    ∃ t, get_rule (n : Int) = some t ∧
      ∀ i : Nat, i < 8 →
        List.lookup (leftPadZeros 3 (binChars i)) t =
          some (if n.testBit i then '1' else '0') := by
  refine ⟨pyRuleTable (n : Int), get_rule_eq _, ?_⟩
  intro i hi
  rw [pyRuleTable_lookup_bit n i hi]
  rfl

/-- Witness for C2 at rule number 90. -/
theorem claim2_witness :
    (90 : Nat) ≤ 255 ∧
      ∃ t, get_rule ((90 : Nat) : Int) = some t ∧
        ∀ i : Nat, i < 8 →
          List.lookup (leftPadZeros 3 (binChars i)) t =
            some (if (90 : Nat).testBit i then '1' else '0') :=
  ⟨by decide, claim2_rule_table_bits 90 (by decide)⟩

/-- C3: for every total rule table, well-formed initial configuration and
generation count `N ≥ 0`, `generate_pattern` returns a sequence of exactly
`N + 1` configurations whose first element is the initial configuration
itself; for `N = 0` the sequence is just the initial configuration. -/
theorem claim3_sequence_shape (R : List (List Char × Char)) (hR : totalRule R)
    (state : List Char) (hwf : wfState state) (N : Int) (hN : 0 ≤ N) :
    ∃ seq, generate_pattern state R N = some seq ∧
      seq.length = N.toNat + 1 ∧ seq.head? = some state ∧
      (N = 0 → seq = [state]) := by
  obtain ⟨rest, hrest, hlen⟩ := genLoop_total R hR N.toNat state hwf
  refine ⟨state :: rest, generate_pattern_eq state R N rest hrest,
    by simp [hlen], rfl, ?_⟩
  intro h0
  subst h0
  have : rest = [] := List.length_eq_zero.mp (by simpa using hlen)
  rw [this]

/-- Witness for C3 with rule 90, initial configuration `"010"`, `N = 2`. -/
theorem claim3_witness :
    totalRule (pyRuleTable ((90 : Nat) : Int)) ∧ wfState ['0', '1', '0'] ∧
      (0 : Int) ≤ 2 ∧
      ∃ seq,
        generate_pattern ['0', '1', '0'] (pyRuleTable ((90 : Nat) : Int)) 2 =
          some seq ∧
        seq.length = (2 : Int).toNat + 1 ∧ seq.head? = some ['0', '1', '0'] ∧
        ((2 : Int) = 0 → seq = [['0', '1', '0']]) :=
  ⟨pyRuleTable_total 90, by decide, by decide,
    claim3_sequence_shape _ (pyRuleTable_total 90) _ (by decide) 2 (by decide)⟩

/-- C4: one transition step on a well-formed configuration of length at
least 3 under a total rule succeeds and produces a configuration of exactly
the same length (the interior loses 2 cells, the padding restores 2). -/
theorem claim4_step_preserves_length (R : List (List Char × Char))
    (hR : totalRule R) (state : List Char) (hwf : wfState state)
    (hL : 3 ≤ state.length) :
    ∃ next, stepState R state = some next ∧ next.length = state.length := by
  obtain ⟨t, ht, hlen, _⟩ := stepState_total R hR state hwf hL
  exact ⟨t, ht, hlen⟩

/-- Witness for C4 with rule 90 and the configuration `"010"`. -/
theorem claim4_witness :
    totalRule (pyRuleTable ((90 : Nat) : Int)) ∧ wfState ['0', '1', '0'] ∧
      3 ≤ (['0', '1', '0'] : List Char).length ∧
      ∃ next, stepState (pyRuleTable ((90 : Nat) : Int)) ['0', '1', '0'] =
          some next ∧
        next.length = (['0', '1', '0'] : List Char).length :=
  ⟨pyRuleTable_total 90, by decide, by decide,
    claim4_step_preserves_length _ (pyRuleTable_total 90) _ (by decide)
      (by decide)⟩

/-- C5: the table built for rule number 90 maps 111→0, 110→1, 101→0, 100→1,
011→1, 010→0, 001→1, 000→0. -/
theorem claim5_rule90 :
    get_rule 90 = some (pyRuleTable 90) ∧
    List.lookup ['1', '1', '1'] (pyRuleTable 90) = some '0' ∧
    List.lookup ['1', '1', '0'] (pyRuleTable 90) = some '1' ∧
    List.lookup ['1', '0', '1'] (pyRuleTable 90) = some '0' ∧
    List.lookup ['1', '0', '0'] (pyRuleTable 90) = some '1' ∧
    List.lookup ['0', '1', '1'] (pyRuleTable 90) = some '1' ∧
    List.lookup ['0', '1', '0'] (pyRuleTable 90) = some '0' ∧
    List.lookup ['0', '0', '1'] (pyRuleTable 90) = some '1' ∧
    List.lookup ['0', '0', '0'] (pyRuleTable 90) = some '0' := by
  decide

/-- C1 counterexample: under rule 90, the initial configuration `"010"` run
for one generation yields `"000"` — still of length 3, not 3 + 2·1 = 5: a
step does not grow the configuration. -/
theorem claim1_counterexample :
    generate_pattern ['0', '1', '0'] (pyRuleTable 90) 1 =
        some [['0', '1', '0'], ['0', '0', '0']] ∧
      ¬ ((['0', '0', '0'] : List Char).length =
          (['0', '1', '0'] : List Char).length + 2 * 1) := by
  decide

/-- C1 (amended): for every total rule table, well-formed initial
configuration of length at least 3 and generation count `N ≥ 0`, the output
sequence has `N + 1` elements and every element `k` has length equal to the
initial configuration's length (the length is unchanged, not grown by `2k`);
in particular an initial configuration of length 300 run for 200 generations
yields a final configuration of length 300. -/
theorem claim1_length_constant (R : List (List Char × Char)) (hR : totalRule R)
    (state : List Char) (hwf : wfState state) (h3 : 3 ≤ state.length)
    (N : Int) (hN : 0 ≤ N) :
    ∃ seq, generate_pattern state R N = some seq ∧
      seq.length = N.toNat + 1 ∧
      ∀ k, k < seq.length → (seq.getD k []).length = state.length := by
  obtain ⟨rest, hrest, hlen, hall⟩ := genLoop_total_len R hR N.toNat state hwf h3
  refine ⟨state :: rest, generate_pattern_eq state R N rest hrest,
    by simp [hlen], ?_⟩
  intro k hk
  cases k with
  | zero => rfl
  | succ j =>
    rw [List.getD_cons_succ]
    simp only [List.length_cons] at hk
    exact hall _ (getD_mem_of_lt rest j (by omega))

/-- Witness for the amended C1 with rule 90, configuration `"010"`, `N = 1`. -/
theorem claim1_witness :
    totalRule (pyRuleTable ((90 : Nat) : Int)) ∧ wfState ['0', '1', '0'] ∧
      3 ≤ (['0', '1', '0'] : List Char).length ∧ (0 : Int) ≤ 1 ∧
      ∃ seq,
        generate_pattern ['0', '1', '0'] (pyRuleTable ((90 : Nat) : Int)) 1 =
          some seq ∧
        seq.length = (1 : Int).toNat + 1 ∧
        ∀ k, k < seq.length →
          (seq.getD k []).length = (['0', '1', '0'] : List Char).length :=
  ⟨pyRuleTable_total 90, by decide, by decide, by decide,
    claim1_length_constant _ (pyRuleTable_total 90) _ (by decide) (by decide)
      1 (by decide)⟩

/-- C6 counterexample: rule numbers outside [0, 255] are not rejected:
`get_rule 901` (the out-of-range value in the interesting-rule list) builds
a full table — the same one as rule 133 = 901 mod 256 — and even a negative
rule number such as -5 silently builds a table. -/
theorem claim6_counterexample :
    get_rule 901 = some (pyRuleTable 901) ∧
      pyRuleTable 901 = pyRuleTable 133 ∧
      get_rule (-5) = some (pyRuleTable (-5)) := by
  decide

/-- C6 (amended): `get_rule` performs no range validation at all: for every
integer rule number `n`, including negative values and values above 255, it
silently returns a full 8-entry table instead of failing. -/
theorem claim6_no_validation (n : Int) :
    ∃ t, get_rule n = some t ∧ t.length = 8 := by
  refine ⟨pyRuleTable n, get_rule_eq n, ?_⟩
  rw [pyRuleTable, List.length_map, List.length_range]

/-- C7 counterexample: a configuration of length 2 < 3 does not make the
step fail: the windowed interior is empty and the appended configuration is
`"00"`. -/
theorem claim7_counterexample :
    generate_pattern ['0', '1'] (pyRuleTable 90) 1 =
      some [['0', '1'], ['0', '0']] := by
  decide

/-- C7 (amended): for every configuration of length less than 3 and any
rule table, a transition step does not fail: windowing yields no patterns
and the step silently produces the two-cell all-off configuration `"00"`. -/
theorem claim7_short_silent (R : List (List Char × Char)) (state : List Char)
    (h : state.length < 3) : stepState R state = some ['0', '0'] :=
  stepState_short R state h

/-- Witness for the amended C7 with rule 90 and the configuration `"1"`. -/
theorem claim7_witness :
    (['1'] : List Char).length < 3 ∧
      stepState (pyRuleTable 90) ['1'] = some ['0', '0'] :=
  ⟨by decide, claim7_short_silent (pyRuleTable 90) ['1'] (by decide)⟩

/-- C8 counterexample: a negative generation count is not rejected:
`generate_pattern` with `max_gen = -5` silently returns the one-element
sequence holding only the initial configuration. -/
theorem claim8_counterexample :
    generate_pattern ['0', '1', '0'] (pyRuleTable 90) (-5) =
      some [['0', '1', '0']] := by
  decide

/-- C8 (amended): for every generation count `N < 0`, `generate_pattern`
does not reject: the Python range over a negative count is empty, so it
silently returns the degenerate one-element sequence `[C0]`. -/
theorem claim8_negative_silent (state : List Char)
    (R : List (List Char × Char)) (N : Int) (hN : N < 0) :
    generate_pattern state R N = some [state] := by
  rw [generate_pattern, show N.toNat = 0 by omega]
  rfl

/-- Witness for the amended C8 with rule 90, configuration `"1"`, `N = -7`. -/
theorem claim8_witness :
    (-7 : Int) < 0 ∧
      generate_pattern ['1'] (pyRuleTable 90) (-7) = some [['1']] :=
  ⟨by decide, claim8_negative_silent ['1'] (pyRuleTable 90) (-7) (by decide)⟩

/-- C9: whatever the rule table, initial configuration and generation count,
every configuration at index `k ≥ 1` of a sequence `generate_pattern`
returns begins and ends with an off-cell `'0'`: the step always pads the
interior with one off-cell on each side. -/
theorem claim9_boundary_off (R : List (List Char × Char)) (state : List Char)
    (N : Int) (seq : List (List Char)) (k : Nat)
    (hgen : generate_pattern state R N = some seq) (hk : 1 ≤ k)
    (hklt : k < seq.length) :
    (seq.getD k []).head? = some '0' ∧ (seq.getD k []).getLast? = some '0' := by
  rw [generate_pattern] at hgen
  cases hgl : genLoop R state N.toNat with
  | none => rw [hgl] at hgen; simp at hgen
  | some rest =>
    rw [hgl] at hgen
    simp only [Option.bind_eq_bind, Option.some_bind, Option.pure_def,
      Option.some_inj] at hgen
    subst hgen
    cases k with
    | zero => omega
    | succ j =>
      rw [List.getD_cons_succ]
      simp only [List.length_cons] at hklt
      have hmem := getD_mem_of_lt rest j (by omega)
      exact genLoop_boundary R N.toNat state rest hgl _ hmem

/-- Witness for C9 with rule 90, configuration `"010"`, `N = 2`, `k = 1`. -/
theorem claim9_witness :
    (generate_pattern ['0', '1', '0'] (pyRuleTable 90) 2 =
        some [['0', '1', '0'], ['0', '0', '0'], ['0', '0', '0']]) ∧
      1 ≤ 1 ∧
      1 < ([['0', '1', '0'], ['0', '0', '0'],
            ['0', '0', '0']] : List (List Char)).length ∧
      (([['0', '1', '0'], ['0', '0', '0'],
          ['0', '0', '0']] : List (List Char)).getD 1 []).head? = some '0' ∧
      (([['0', '1', '0'], ['0', '0', '0'],
          ['0', '0', '0']] : List (List Char)).getD 1 []).getLast? = some '0' :=
  ⟨by decide, by decide, by decide,
    (claim9_boundary_off (pyRuleTable 90) ['0', '1', '0'] 2 _ 1 (by decide)
        (by decide) (by decide)).1,
    (claim9_boundary_off (pyRuleTable 90) ['0', '1', '0'] 2 _ 1 (by decide)
        (by decide) (by decide)).2⟩

/-- C10: for every non-negative rule number `n`, `get_rule n` equals
`get_rule (n mod 256)`: rule numbers at or above 256 (such as 901 in the
interesting-rule list) are silently reduced to their low 8 bits. -/
theorem claim10_mod_256 (n : Nat) :
    get_rule (n : Int) = get_rule ((n % 256 : Nat) : Int) := by
  rw [get_rule_eq, get_rule_eq]
  rw [pyRuleTable, pyRuleTable]
  refine congrArg some (List.map_congr_left ?_)
  intro i hi
  rw [List.mem_range] at hi
  have h1 := pyFormat08b_reverse_getElem? n i hi
  have h2 := pyFormat08b_reverse_getElem? (n % 256) i hi
  refine congrArg (Prod.mk _) ?_
  rw [List.getD_eq_getElem?_getD, List.getD_eq_getElem?_getD, h1, h2]
  simp only [Option.getD_some]
  rw [bitChar, bitChar, show (256 : Nat) = 2 ^ 8 from rfl,
    Nat.testBit_mod_two_pow]
  simp [hi]
